import Mathlib

/-!
Verification of the CIFAR-10 convolutional-network notebook
(`Object Recognition in CIFAR-10 with Convolutional Neural Networks`).

The notebook is declarative configuration over the Keras library: it
normalizes pixels, one-hot encodes labels, builds two `Sequential`
layer lists, and calls `compile` / `fit` / `evaluate`.  The layer
lists, hyperparameters, and seeding order are embedded directly from
the notebook cells; the parts of the behaviour that live inside the
external library (shape propagation, the learning-rate schedule, the
batching loop, the evaluation metrics, dropout semantics, the global
random generator) are modelled from the specification's description of
those collaborator interfaces, as noted on each definition.
-/

namespace Cifar

/-- Activation functions used by the notebook (`activation='relu'` /
`activation='softmax'`). -/
inductive Activation
  | relu
  | softmax
deriving DecidableEq, Repr

/-- Spatial padding mode of a convolution (`border_mode` in Keras 1.x);
the notebook only ever passes `'same'`. -/
inductive BorderMode
  | same
  | valid
deriving DecidableEq, Repr

/-- A channels × height × width tensor shape (`th` image ordering, as set
by `K.set_image_dim_ordering('th')`). -/
structure Shape3 where
  channels : Nat
  height : Nat
  width : Nat
deriving DecidableEq, Repr

/-- One layer configuration, the closed tagged-variant view of a Keras
`model.add(...)` call as used in the notebook. -/
inductive Layer
  | convolution2D (nbFilter nbRow nbCol : Nat) (borderMode : BorderMode)
      (activation : Activation) (wConstraint : Option Nat)
      (inputShape : Option Shape3)
  | dropout (p : ℚ)
  | maxPooling2D (poolH poolW : Nat)
  | flatten
  | dense (outputDim : Nat) (activation : Activation) (wConstraint : Option Nat)
deriving DecidableEq, Repr

/-- Width of the one-hot encoding produced by `np_utils.to_categorical`
when called with no explicit class count: one more than the largest
label present (`nb_classes = np.max(y) + 1`). -/
def toCategoricalWidth (y : List Nat) : Nat :=
  y.foldl max 0 + 1

/-- The one-hot row for label `l` in a vector of width `n`: entry `i` is
`1.0` when `i = l` and `0.0` otherwise. -/
def oneHotRow (n l : Nat) : List ℚ :=
  (List.range n).map (fun i => if i = l then 1 else 0)

/-- `np_utils.to_categorical y`: each label becomes its one-hot row of
width `toCategoricalWidth y`. -/
def toCategorical (y : List Nat) : List (List ℚ) :=
  y.map (oneHotRow (toCategoricalWidth y))

/-- `num_classes = y_test.shape[1]`: the width of the one-hot encoding of
the test labels. -/
def numClasses (yTest : List Nat) : Nat :=
  toCategoricalWidth yTest

/-- The shallow model of the notebook, exactly the `model.add` sequence of
the simple-CNN cell: two 3×3 same-padded relu convolutions with max-norm
constraint 3 around a 20% dropout, 2×2 max pooling, flatten, a 512-unit
relu dense layer with constraint 3, 50% dropout, and a softmax output of
`num_classes` units. -/
def shallowModel (nc : Nat) : List Layer :=
  [ Layer.convolution2D 32 3 3 BorderMode.same Activation.relu (some 3)
      (some ⟨3, 32, 32⟩)
  , Layer.dropout (0.2 : ℚ)
  , Layer.convolution2D 32 3 3 BorderMode.same Activation.relu (some 3) none
  , Layer.maxPooling2D 2 2
  , Layer.flatten
  , Layer.dense 512 Activation.relu (some 3)
  , Layer.dropout (0.5 : ℚ)
  , Layer.dense nc Activation.softmax none ]

/-- The deep model of the notebook, exactly the `model.add` sequence of
the larger-CNN cell: three {conv, dropout 0.2, conv, max-pool} blocks
with 32, 64, 128 feature maps (no weight constraint on these
convolutions), then flatten, and 1024/512-unit relu dense layers with
max-norm constraint 3 interleaved with 20% dropout, ending in a softmax
output of `num_classes` units. -/
def deepModel (nc : Nat) : List Layer :=
  [ Layer.convolution2D 32 3 3 BorderMode.same Activation.relu none
      (some ⟨3, 32, 32⟩)
  , Layer.dropout (0.2 : ℚ)
  , Layer.convolution2D 32 3 3 BorderMode.same Activation.relu none none
  , Layer.maxPooling2D 2 2
  , Layer.convolution2D 64 3 3 BorderMode.same Activation.relu none none
  , Layer.dropout (0.2 : ℚ)
  , Layer.convolution2D 64 3 3 BorderMode.same Activation.relu none none
  , Layer.maxPooling2D 2 2
  , Layer.convolution2D 128 3 3 BorderMode.same Activation.relu none none
  , Layer.dropout (0.2 : ℚ)
  , Layer.convolution2D 128 3 3 BorderMode.same Activation.relu none none
  , Layer.maxPooling2D 2 2
  , Layer.flatten
  , Layer.dropout (0.2 : ℚ)
  , Layer.dense 1024 Activation.relu (some 3)
  , Layer.dropout (0.2 : ℚ)
  , Layer.dense 512 Activation.relu (some 3)
  , Layer.dropout (0.2 : ℚ)
  , Layer.dense nc Activation.softmax none ]

/-- A tensor shape flowing between layers: a 3-dimensional feature map or
a flattened vector. -/
inductive Shape
  | tensor3 (channels height width : Nat)
  | vec (n : Nat)
deriving DecidableEq, Repr

/-- Modelled from the spec: the shape each layer kind produces, per the
collaborator interface description — a `same`-padded convolution keeps
the spatial extent and sets the channel count to its kernel count, a
`valid` convolution shrinks each spatial extent by `kernel − 1`, dropout
preserves shape, max pooling divides each spatial extent by its window,
flatten reshapes to one dimension, and a dense layer outputs its unit
count.  `none` marks a dimensionally inconsistent application. -/
def layerOutShape (s : Shape) : Layer → Option Shape
  | Layer.convolution2D k kh kw bm _ _ _ =>
      match s, bm with
      | Shape.tensor3 _ h w, BorderMode.same => some (Shape.tensor3 k h w)
      | Shape.tensor3 _ h w, BorderMode.valid =>
          some (Shape.tensor3 k (h - (kh - 1)) (w - (kw - 1)))
      | Shape.vec _, _ => none
  | Layer.dropout _ => some s
  | Layer.maxPooling2D ph pw =>
      match s with
      | Shape.tensor3 c h w => some (Shape.tensor3 c (h / ph) (w / pw))
      | Shape.vec _ => none
  | Layer.flatten =>
      match s with
      | Shape.tensor3 c h w => some (Shape.vec (c * h * w))
      | Shape.vec n => some (Shape.vec n)
  | Layer.dense d _ _ =>
      match s with
      | Shape.vec _ => some (Shape.vec d)
      | Shape.tensor3 _ _ _ => none

/-- Shape after feeding `s` through the layer list in order. -/
def shapeAfter (layers : List Layer) (s : Shape) : Option Shape :=
  layers.foldl (fun acc L => acc.bind (fun sh => layerOutShape sh L)) (some s)

/-- Pixel normalization `x / 255.0` applied to one 8-bit intensity
(`X_train = X_train / 255.0`), over exact rationals. -/
def normalize (x : Nat) : ℚ :=
  (x : ℚ) / 255

/-- Elementwise normalization of a raw image tensor (flattened view). -/
def normalizeImage (img : List Nat) : List ℚ :=
  img.map normalize

/-- First index of the largest entry (`numpy.argmax` tie-breaking). -/
def argmaxAux : List ℚ → Nat → Nat → ℚ → Nat
  | [], _, best, _ => best
  | x :: xs, i, best, bestVal =>
      if bestVal < x then argmaxAux xs (i + 1) i x
      else argmaxAux xs (i + 1) best bestVal

/-- `numpy.argmax` on a probability vector: index of the first maximal
entry (`0` on the empty list). -/
def argmax : List ℚ → Nat
  | [] => 0
  | x :: xs => argmaxAux xs 1 0 x

/-- `epochs = 25` from the notebook's compile cell. -/
def epochs : Nat := 25

/-- `lrate = 0.01` from the notebook's compile cell. -/
def lrate : ℚ := 0.01

/-- `decay = lrate / epochs` from the notebook's compile cell. -/
def decay : ℚ := lrate / (epochs : ℚ)

/-- Modelled from the spec: the SGD internals live in the external Keras
library, and the spec states the learning rate decays linearly per
epoch, `rate_t = rate_0 / (1 + decay·t)`. -/
def rateAtEpoch (t : Nat) : ℚ :=
  lrate / (1 + decay * (t : ℚ))

/-- Modelled from the spec: the rate the parameter update uses at batch
`i` of epoch `t` — the per-epoch rate, the decay step happening only at
epoch granularity, so the batch index is not consulted. -/
def lrForBatch (t _i : Nat) : ℚ :=
  rateAtEpoch t

/-- Modelled from the spec: one epoch of `model.fit` partitions the
training set into contiguous batches of size `b`, the final batch
holding whatever remains when `b` does not divide the set size. -/
def toBatches (b : Nat) : List α → List (List α)
  | [] => []
  | x :: xs =>
      if b = 0 then []
      else (x :: xs).take b :: toBatches b ((x :: xs).drop b)
termination_by xs => xs.length
decreasing_by
  simp
  omega

/-- Accumulator of `model.evaluate`: running loss total and number of
correctly classified examples. -/
structure EvalAcc where
  lossSum : ℚ
  correct : Nat
deriving DecidableEq, Repr

/-- Modelled from the spec: one example's contribution during
`model.evaluate` — add the categorical cross-entropy of the predicted
distribution against the one-hot true label (`-log p_label`, with the
logarithm abstract, supplied by the numerical library) and count the
example as correct when the arg-max predicted class equals the label. -/
def evalStep (logFn : ℚ → ℚ) (acc : EvalAcc) (pred : List ℚ) (label : Nat) :
    EvalAcc :=
  { lossSum := acc.lossSum - logFn (pred.getD label 0)
  , correct := acc.correct + (if argmax pred = label then 1 else 0) }

/-- A trained model for evaluation purposes: an abstract parameter vector
and a prediction function applying those parameters to an input. -/
structure ModelState (ι : Type) where
  params : List ℚ
  predict : List ℚ → ι → List ℚ

/-- Modelled from the spec: `model.evaluate` folds over the test examples
accumulating loss and correct count, returns (mean categorical
cross-entropy, accuracy) and hands the model's parameters back
untouched — a read-only pass with no update step. -/
def modelEvaluate (logFn : ℚ → ℚ) (m : ModelState ι)
    (xs : List ι) (ys : List Nat) : (ℚ × ℚ) × List ℚ :=
  let pairs := xs.zip ys
  let fin := pairs.foldl
    (fun acc p => evalStep logFn acc (m.predict m.params p.1) p.2)
    ⟨0, 0⟩
  ((fin.lossSum / (pairs.length : ℚ), (fin.correct : ℚ) / (pairs.length : ℚ)),
    m.params)

/-- A layer of the vector-level forward semantics used to state the
dropout properties: a dense affine map, a rectifier, or dropout. -/
inductive VLayer
  | vdense (w : List (List ℚ)) (b : List ℚ)
  | vrelu
  | vdropout (p : ℚ)

/-- Dot product of two rational vectors. -/
def dotProd (u v : List ℚ) : ℚ :=
  ((u.zip v).map (fun p => p.1 * p.2)).sum

/-- Modelled from the spec: one layer of the forward pass.  A dropout
layer in training mode keeps coordinate `i` exactly when the stochastic
mask says so, rescaling kept units by `1/(1-p)`; in evaluation mode it
is an identity pass-through and the mask is never consulted.  Dense and
relu layers are deterministic in both modes. -/
def runVLayer (training : Bool) (mask : Nat → Bool) :
    VLayer → List ℚ → List ℚ
  | VLayer.vdense w b, x => (w.zip b).map (fun r => dotProd r.1 x + r.2)
  | VLayer.vrelu, x => x.map (fun v => max v 0)
  | VLayer.vdropout p, x =>
      if training then
        ((List.range x.length).zip x).map
          (fun iv => if mask iv.1 then iv.2 / (1 - p) else 0)
      else x

/-- Forward pass through a layer list, each layer drawing its own mask
from the stream (missing masks default to keep-everything). -/
def runVNet (training : Bool) (masks : List (Nat → Bool)) :
    List VLayer → List ℚ → List ℚ
  | [], x => x
  | L :: Ls, x =>
      runVNet training masks.tail Ls
        (runVLayer training (masks.headD (fun _ => true)) L x)

/-- The state of the process-wide numpy random generator: which seed it
was last reset to, and how many draws were consumed since. -/
structure RngState where
  seed : Nat
  draws : Nat
deriving DecidableEq, Repr

/-- `numpy.random.seed k`: resets the global generator to the pure
function of `k`. -/
def npSeed (k : Nat) (_ : RngState) : RngState :=
  ⟨k, 0⟩

/-- A step that consumes `n` random draws (weight initialization,
dropout masking during a fit call) without reseeding. -/
def consume (n : Nat) (s : RngState) : RngState :=
  ⟨s.seed, s.draws + n⟩

/-- Generator state when the shallow model initializes its weights:
right after the notebook's first `numpy.random.seed(seed)`. -/
def stateBeforeShallowInit : RngState :=
  npSeed 7 ⟨0, 0⟩

/-- Generator state when the deep model initializes its weights, per the
notebook's cell order: the first seeding, then the shallow model's
initialization (`iInit` draws) and its `fit` call (`fTrain` draws); no
reseeding happens before the deep `Sequential` is built. -/
def stateBeforeDeepInit (iInit fTrain : Nat) : RngState :=
  consume fTrain (consume iInit stateBeforeShallowInit)

/-- Generator state when the deep model's `fit` starts: the notebook
calls `numpy.random.seed(seed)` again immediately before it, after the
deep model's weights were already initialized (`iDeep` draws). -/
def stateBeforeDeepFit (iInit fTrain iDeep : Nat) : RngState :=
  npSeed 7 (consume iDeep (stateBeforeDeepInit iInit fTrain))

/-! ## Helper lemmas -/

/-- The fold initial value is a lower bound of a `max`-fold. -/
theorem le_foldl_max_init (y : List Nat) :
    ∀ acc : Nat, acc ≤ y.foldl max acc := by
  induction y with
  | nil => intro acc; exact Nat.le_refl acc
  | cons b ys ih =>
      intro acc
      exact Nat.le_trans (Nat.le_max_left acc b) (ih (max acc b))

/-- Every member of a list is bounded by its `max`-fold. -/
theorem mem_le_foldl_max (y : List Nat) :
    ∀ (acc a : Nat), a ∈ y → a ≤ y.foldl max acc := by
  induction y with
  | nil => intro _ a ha; cases ha
  | cons b ys ih =>
      intro acc a ha
      rcases List.mem_cons.mp ha with h | h
      · subst h
        exact Nat.le_trans (Nat.le_max_right acc a) (le_foldl_max_init ys _)
      · exact ih (max acc b) a h

/-- Concatenating the batches of one epoch restores the training set
exactly: order kept, nothing dropped, nothing duplicated. -/
theorem toBatches_join (b : Nat) (hb : 0 < b) (xs : List α) :
    (toBatches b xs).flatten = xs := by
  have hgen : ∀ (n : Nat) (ys : List α), ys.length = n →
      (toBatches b ys).flatten = ys := by
    intro n
    induction n using Nat.strong_induction_on with
    | _ n ih =>
      intro ys hn
      cases ys with
      | nil => simp [toBatches]
      | cons x rest =>
        have hb0 : b ≠ 0 := Nat.pos_iff_ne_zero.mp hb
        simp only [toBatches, if_neg hb0, List.flatten_cons]
        rw [ih (((x :: rest).drop b).length) (by subst hn; simp; omega) _ rfl]
        exact List.take_append_drop b (x :: rest)
  exact hgen xs.length xs rfl

/-- A nonempty list yields a nonempty batch list when the batch size is
nonzero. -/
theorem toBatches_ne_nil (b : Nat) (hb0 : b ≠ 0) (x : α) (xs : List α) :
    toBatches b (x :: xs) ≠ [] := by
  simp [toBatches, if_neg hb0]

/-- Every batch of an epoch except the last has exactly the configured
size, and the last batch has size `n % b` (or a full `b` when the batch
size divides the set size). -/
theorem toBatches_sizes (b : Nat) (hb : 0 < b) (xs : List α) (hne : xs ≠ []) :
    (∀ c ∈ (toBatches b xs).dropLast, c.length = b) ∧
    (toBatches b xs).getLast?.map List.length =
      some (if xs.length % b = 0 then b else xs.length % b) := by
  have hgen : ∀ (n : Nat) (ys : List α), ys.length = n → ys ≠ [] →
      (∀ c ∈ (toBatches b ys).dropLast, c.length = b) ∧
      (toBatches b ys).getLast?.map List.length =
        some (if ys.length % b = 0 then b else ys.length % b) := by
    intro n
    induction n using Nat.strong_induction_on with
    | _ n ih =>
      intro ys hn hne2
      cases ys with
      | nil => exact absurd rfl hne2
      | cons x rest =>
        have hb0 : b ≠ 0 := Nat.pos_iff_ne_zero.mp hb
        by_cases hsmall : (x :: rest).length ≤ b
        · have hdrop : (x :: rest).drop b = [] := by
            rw [List.drop_eq_nil_iff]
            exact hsmall
          have hbl : toBatches b (x :: rest) = [(x :: rest).take b] := by
            simp [toBatches, if_neg hb0, hdrop]
          rw [hbl]
          refine ⟨by simp, ?_⟩
          have htk : ((x :: rest).take b).length = (x :: rest).length := by
            rw [List.length_take]
            simp only [List.length_cons] at hsmall ⊢
            omega
          rcases Nat.lt_or_ge (x :: rest).length b with hlt | hge
          · have hmod : (x :: rest).length % b = (x :: rest).length :=
              Nat.mod_eq_of_lt hlt
            have hpos : (x :: rest).length ≠ 0 := by simp
            simp [htk]
            simp only [List.length_cons] at hmod hpos
            rw [hmod, if_neg hpos]
          · have heq : (x :: rest).length = b := Nat.le_antisymm hsmall hge
            have hif : (if (x :: rest).length % b = 0 then b
                else (x :: rest).length % b) = b := by
              rw [heq, Nat.mod_self, if_pos rfl]
            simp [htk, heq, hif]
        · push_neg at hsmall
          have hdne : (x :: rest).drop b ≠ [] := by
            rw [ne_eq, List.drop_eq_nil_iff]
            omega
          obtain ⟨y, ys2, hys⟩ := List.exists_cons_of_ne_nil hdne
          have hrec : toBatches b (x :: rest) =
              (x :: rest).take b :: toBatches b ((x :: rest).drop b) := by
            simp [toBatches, if_neg hb0]
          obtain ⟨ihA, ihB⟩ := ih (((x :: rest).drop b).length)
            (by subst hn; simp; omega) ((x :: rest).drop b) rfl hdne
          have htne : toBatches b ((x :: rest).drop b) ≠ [] := by
            rw [hys]
            exact toBatches_ne_nil b hb0 y ys2
          obtain ⟨c, cs, hcs⟩ := List.exists_cons_of_ne_nil htne
          constructor
          · intro d hd
            rw [hrec, hcs, List.dropLast_cons₂, List.mem_cons] at hd
            rcases hd with hd | hd
            · subst hd
              rw [List.length_take]
              simp only [List.length_cons] at hsmall ⊢
              omega
            · exact ihA d (by rw [hcs]; exact hd)
          · have hlast : (toBatches b (x :: rest)).getLast? =
                (toBatches b ((x :: rest).drop b)).getLast? := by
              rw [hrec, hcs, List.getLast?_cons_cons]
            rw [hlast, ihB]
            have hlen : ((x :: rest).drop b).length = (x :: rest).length - b := by
              simp
            have hmod : (x :: rest).length % b = ((x :: rest).length - b) % b :=
              Nat.mod_eq_sub_mod (Nat.le_of_lt hsmall)
            rw [hlen, ← hmod]
  exact hgen xs.length xs rfl hne

/-- Folding `evalStep` over the example list accumulates exactly the
negated sum of per-example log-probabilities and the count of examples
whose arg-max prediction equals the label. -/
theorem evalStep_foldl {ι : Type} (logFn : ℚ → ℚ) (f : ι × Nat → List ℚ)
    (pairs : List (ι × Nat)) :
    ∀ (s0 : ℚ) (c0 : Nat),
      pairs.foldl (fun acc p => evalStep logFn acc (f p) p.2) ⟨s0, c0⟩ =
        ⟨s0 - (pairs.map (fun p => logFn ((f p).getD p.2 0))).sum,
          c0 + pairs.countP (fun p => argmax (f p) == p.2)⟩ := by
  induction pairs with
  | nil => intro s0 c0; simp
  | cons p ps ih =>
      intro s0 c0
      rw [List.foldl_cons]
      have hstep : evalStep logFn ⟨s0, c0⟩ (f p) p.2 =
          ⟨s0 - logFn ((f p).getD p.2 0),
            c0 + (if argmax (f p) = p.2 then 1 else 0)⟩ := rfl
      rw [hstep, ih]
      simp only [List.map_cons, List.sum_cons, List.countP_cons, beq_iff_eq]
      refine congrArg₂ EvalAcc.mk ?_ ?_
      · ring
      · split <;> omega

/-- In evaluation mode no layer consults the stochastic mask. -/
theorem runVLayer_eval_mask_free (l : VLayer) (m1 m2 : Nat → Bool)
    (x : List ℚ) :
    runVLayer false m1 l x = runVLayer false m2 l x := by
  cases l <;> simp [runVLayer]

/-- An evaluation-mode forward pass is independent of the entire mask
stream. -/
theorem runVNet_eval_deterministic (L : List VLayer) :
    ∀ (m1 m2 : List (Nat → Bool)) (x : List ℚ),
      runVNet false m1 L x = runVNet false m2 L x := by
  induction L with
  | nil => intro m1 m2 x; rfl
  | cons l ls ih =>
      intro m1 m2 x
      simp only [runVNet]
      rw [runVLayer_eval_mask_free l (m1.headD fun _ => true)
        (m2.headD fun _ => true) x]
      exact ih m1.tail m2.tail _

/-! ## Claim theorems -/

/-- C1: the shallow model is exactly the ordered 8-layer sequence —
Conv(32, 3×3, same, relu, max-norm 3) on a 3×32×32 input, Dropout(0.2),
Conv(32, 3×3, same, relu, max-norm 3), MaxPool(2×2), Flatten,
Dense(512, relu, max-norm 3), Dropout(0.5), Dense(10, softmax) — with
each layer's output feeding the next (the chain is dimensionally
consistent from the 3×32×32 input down to the 10-way output). -/
theorem shallow_model_is_spec_sequence (yTest : List Nat)
    (h : yTest.foldl max 0 = 9) :
    numClasses yTest = 10 ∧
    shallowModel (numClasses yTest) =
      [ Layer.convolution2D 32 3 3 BorderMode.same Activation.relu (some 3)
          (some ⟨3, 32, 32⟩)
      , Layer.dropout (0.2 : ℚ)
      , Layer.convolution2D 32 3 3 BorderMode.same Activation.relu (some 3)
          none
      , Layer.maxPooling2D 2 2
      , Layer.flatten
      , Layer.dense 512 Activation.relu (some 3)
      , Layer.dropout (0.5 : ℚ)
      , Layer.dense 10 Activation.softmax none ] ∧
    shapeAfter (shallowModel (numClasses yTest)) (Shape.tensor3 3 32 32) =
      some (Shape.vec 10) := by
  have hnc : numClasses yTest = 10 := by
    simp [numClasses, toCategoricalWidth, h]
  refine ⟨hnc, ?_, ?_⟩
  · rw [hnc]
    rfl
  · rw [hnc]
    rfl

/-- Witness for C1 at the full CIFAR-10 label set `{0, …, 9}`. -/
theorem shallow_model_is_spec_sequence_witness :
    numClasses [0, 1, 2, 3, 4, 5, 6, 7, 8, 9] = 10 ∧
    shallowModel (numClasses [0, 1, 2, 3, 4, 5, 6, 7, 8, 9]) =
      [ Layer.convolution2D 32 3 3 BorderMode.same Activation.relu (some 3)
          (some ⟨3, 32, 32⟩)
      , Layer.dropout (0.2 : ℚ)
      , Layer.convolution2D 32 3 3 BorderMode.same Activation.relu (some 3)
          none
      , Layer.maxPooling2D 2 2
      , Layer.flatten
      , Layer.dense 512 Activation.relu (some 3)
      , Layer.dropout (0.5 : ℚ)
      , Layer.dense 10 Activation.softmax none ] ∧
    shapeAfter (shallowModel (numClasses [0, 1, 2, 3, 4, 5, 6, 7, 8, 9]))
      (Shape.tensor3 3 32 32) = some (Shape.vec 10) :=
  shallow_model_is_spec_sequence [0, 1, 2, 3, 4, 5, 6, 7, 8, 9] (by decide)

/-- C2: for the deep model on a 3×32×32 input, the first twelve layers
are the three {Conv k, Dropout, Conv k, MaxPool} blocks with
k = 32, 64, 128, and the shape after each block is
32×16×16, 64×8×8, 128×4×4 — the spatial extent halves 32→16→8→4 while
the channel count equals each block's configured kernel count. -/
theorem deep_model_shape_invariant (nc : Nat) :
    (deepModel nc).take 12 =
      [ Layer.convolution2D 32 3 3 BorderMode.same Activation.relu none
          (some ⟨3, 32, 32⟩)
      , Layer.dropout (0.2 : ℚ)
      , Layer.convolution2D 32 3 3 BorderMode.same Activation.relu none none
      , Layer.maxPooling2D 2 2
      , Layer.convolution2D 64 3 3 BorderMode.same Activation.relu none none
      , Layer.dropout (0.2 : ℚ)
      , Layer.convolution2D 64 3 3 BorderMode.same Activation.relu none none
      , Layer.maxPooling2D 2 2
      , Layer.convolution2D 128 3 3 BorderMode.same Activation.relu none none
      , Layer.dropout (0.2 : ℚ)
      , Layer.convolution2D 128 3 3 BorderMode.same Activation.relu none none
      , Layer.maxPooling2D 2 2 ] ∧
    shapeAfter ((deepModel nc).take 4) (Shape.tensor3 3 32 32) =
      some (Shape.tensor3 32 16 16) ∧
    shapeAfter ((deepModel nc).take 8) (Shape.tensor3 3 32 32) =
      some (Shape.tensor3 64 8 8) ∧
    shapeAfter ((deepModel nc).take 12) (Shape.tensor3 3 32 32) =
      some (Shape.tensor3 128 4 4) :=
  ⟨rfl, rfl, rfl, rfl⟩

/-- C3: the configured decay is `lrate / epochs` (here `1/2500`), the
rate applied at every batch of epoch `t` is
`rate_0 / (1 + (rate_0/epochs)·t)`, and the decay step has epoch
granularity: the rate does not vary with the batch index inside an
epoch. -/
theorem learning_rate_decays_per_epoch (t i j : Nat) :
    decay = lrate / (epochs : ℚ) ∧
    decay = 1 / 2500 ∧
    lrForBatch t i = lrate / (1 + (lrate / (epochs : ℚ)) * (t : ℚ)) ∧
    lrForBatch t i = lrForBatch t j :=
  ⟨rfl, by norm_num [decay, lrate, epochs], rfl, rfl⟩

/-- C4: normalization is the pure elementwise scaling `x / 255`, its
output lies in `[0, 1]` whenever the input intensities are 8-bit values
in `[0, 255]`, and it is injective, so the original integer is
recoverable from the scaled value. -/
theorem normalize_range_and_injective (img : List Nat)
    (h : ∀ x ∈ img, x ≤ 255) :
    normalizeImage img = img.map (fun x : Nat => (x : ℚ) / 255) ∧
    (∀ v ∈ normalizeImage img, 0 ≤ v ∧ v ≤ 1) ∧
    (∀ a b : Nat, normalize a = normalize b → a = b) := by
  refine ⟨rfl, ?_, ?_⟩
  · intro v hv
    rcases List.mem_map.mp hv with ⟨x, hx, hveq⟩
    subst hveq
    unfold normalize
    constructor
    · positivity
    · rw [div_le_one (by norm_num)]
      exact_mod_cast h x hx
  · intro a b hab
    have hq : (a : ℚ) / 255 = (b : ℚ) / 255 := hab
    have h2 : (a : ℚ) = (b : ℚ) := by
      field_simp at hq
      exact_mod_cast hq
    exact_mod_cast h2

/-- Witness for C4 at a concrete 8-bit image. -/
theorem normalize_range_and_injective_witness :
    normalizeImage [0, 128, 255] =
      ([0, 128, 255] : List Nat).map (fun x : Nat => (x : ℚ) / 255) ∧
    (∀ v ∈ normalizeImage [0, 128, 255], 0 ≤ v ∧ v ≤ 1) ∧
    (∀ a b : Nat, normalize a = normalize b → a = b) :=
  normalize_range_and_injective [0, 128, 255] (by decide)

/-- C5: for every label `l` in `[0, 9]`, the arg-max of the one-hot
encoding of `l` over the 10-class domain is `l` again, exactly one
entry of the encoding equals `1.0`, and every other entry is `0.0`. -/
theorem oneHot_argmax_roundtrip :
    ∀ l < 10, argmax (oneHotRow 10 l) = l ∧
      (oneHotRow 10 l).count 1 = 1 ∧
      ∀ v ∈ oneHotRow 10 l, v = 1 ∨ v = 0 := by
  decide

/-- Witness for C5 at label 3. -/
theorem oneHot_argmax_roundtrip_witness :
    argmax (oneHotRow 10 3) = 3 ∧
    (oneHotRow 10 3).count 1 = 1 ∧
    ∀ v ∈ oneHotRow 10 3, v = 1 ∨ v = 0 :=
  oneHot_argmax_roundtrip 3 (by decide)

/-- C6 counterexample: for the test label set `[0, 5]` the encoded
width produced by `to_categorical` (no explicit class count) is
`max + 1 = 6`, while only 2 distinct classes are observed, so the
claimed equality of width and distinct-class count fails. -/
theorem toCategorical_width_counterexample :
    toCategoricalWidth [0, 5] = 6 ∧
    (toCategorical [0, 5]).map List.length = [6, 6] ∧
    ([0, 5] : List Nat).dedup.length = 2 ∧
    toCategoricalWidth [0, 5] ≠ ([0, 5] : List Nat).dedup.length := by
  decide

/-- C6 amended: the one-hot width is `max label + 1`; whenever every
value up to the maximum occurs in the test labels (the spec's
contiguous-from-0 contract assumption, true of CIFAR-10), that width
equals the number of distinct observed classes, and every encoded row
has that width. -/
theorem toCategorical_width_eq_distinct (y : List Nat)
    (hcover : ∀ i ≤ y.foldl max 0, i ∈ y) :
    toCategoricalWidth y = y.foldl max 0 + 1 ∧
    toCategoricalWidth y = y.dedup.length ∧
    ∀ row ∈ toCategorical y, row.length = toCategoricalWidth y := by
  refine ⟨rfl, ?_, ?_⟩
  · have hfin : y.toFinset = Finset.range (y.foldl max 0 + 1) := by
      ext a
      simp only [List.mem_toFinset, Finset.mem_range, Nat.lt_succ_iff]
      constructor
      · exact fun ha => mem_le_foldl_max y 0 a ha
      · exact fun ha => hcover a ha
    have hcard : y.toFinset.card = y.foldl max 0 + 1 := by
      rw [hfin, Finset.card_range]
    rw [toCategoricalWidth, ← hcard, List.card_toFinset]
  · intro row hrow
    rcases List.mem_map.mp hrow with ⟨l, _, hr⟩
    subst hr
    simp [oneHotRow]

/-- Witness for the amended C6 at the contiguous label set `[0, 1, 2]`. -/
theorem toCategorical_width_eq_distinct_witness :
    toCategoricalWidth [0, 1, 2] = ([0, 1, 2] : List Nat).foldl max 0 + 1 ∧
    toCategoricalWidth [0, 1, 2] = ([0, 1, 2] : List Nat).dedup.length ∧
    ∀ row ∈ toCategorical [0, 1, 2], row.length = toCategoricalWidth [0, 1, 2] :=
  toCategorical_width_eq_distinct [0, 1, 2] (by decide)

/-- C7: when the batch size `b` does not divide the training set size,
one epoch still covers every example exactly once — the contiguous
batches concatenate back to the training set in order (so nothing is
dropped or duplicated), every batch except the last has size `b`, the
final batch has size `n mod b`, and the batch sizes sum to `n`. -/
theorem fit_batches_every_example_once (b : Nat) (xs : List α)
    (hb : 0 < b) (hnd : ¬ b ∣ xs.length) :
    (toBatches b xs).flatten = xs ∧
    (∀ c ∈ (toBatches b xs).dropLast, c.length = b) ∧
    (toBatches b xs).getLast?.map List.length = some (xs.length % b) ∧
    ((toBatches b xs).map List.length).sum = xs.length := by
  have hne : xs ≠ [] := by
    intro h
    rw [h] at hnd
    exact hnd (dvd_zero b)
  have hmod : xs.length % b ≠ 0 := fun h => hnd (Nat.dvd_of_mod_eq_zero h)
  obtain ⟨h1, h2⟩ := toBatches_sizes b hb xs hne
  refine ⟨toBatches_join b hb xs, h1, ?_, ?_⟩
  · rw [h2, if_neg hmod]
  · have hlen := congrArg List.length (toBatches_join b hb xs)
    rw [List.length_flatten] at hlen
    exact hlen

/-- Witness for C7 with seven examples and batch size three (3 ∤ 7). -/
theorem fit_batches_every_example_once_witness :
    (toBatches 3 (List.range 7)).flatten = List.range 7 ∧
    (∀ c ∈ (toBatches 3 (List.range 7)).dropLast, c.length = 3) ∧
    (toBatches 3 (List.range 7)).getLast?.map List.length =
      some ((List.range 7).length % 3) ∧
    ((toBatches 3 (List.range 7)).map List.length).sum =
      (List.range 7).length :=
  fit_batches_every_example_once 3 (List.range 7) (by decide) (by decide)

/-- C8: evaluation returns the pair (mean categorical cross-entropy
loss, accuracy): the loss is the mean over examples of
`-log p_label`, the accuracy is the fraction of examples whose arg-max
predicted class equals the true label, and the model's parameters come
back exactly as they went in — no update, no side effect. -/
theorem evaluate_returns_loss_accuracy_pure {ι : Type} (logFn : ℚ → ℚ)
    (m : ModelState ι) (xs : List ι) (ys : List Nat) :
    modelEvaluate logFn m xs ys =
      ((-(((xs.zip ys).map
            (fun p => logFn ((m.predict m.params p.1).getD p.2 0))).sum) /
          ((xs.zip ys).length : ℚ),
        (((xs.zip ys).countP
            (fun p => argmax (m.predict m.params p.1) == p.2) : Nat) : ℚ) /
          ((xs.zip ys).length : ℚ)),
       m.params) := by
  unfold modelEvaluate
  dsimp only
  rw [evalStep_foldl logFn (fun p => m.predict m.params p.1) (xs.zip ys) 0 0]
  simp

/-- C9: dropout layers are the identity in evaluation mode, an
evaluation-mode forward pass is independent of the stochastic mask
stream — so two evaluation runs of a fixed model on the same input are
identical — while two training-mode passes can differ: with drop
probability 0.5, the masks keep-all and drop-all give different
outputs on the same input. -/
theorem dropout_eval_identity_and_determinism :
    (∀ (mask : Nat → Bool) (p : ℚ) (x : List ℚ),
        runVLayer false mask (VLayer.vdropout p) x = x) ∧
    (∀ (L : List VLayer) (m1 m2 : List (Nat → Bool)) (x : List ℚ),
        runVNet false m1 L x = runVNet false m2 L x) ∧
    runVNet true [fun _ => true] [VLayer.vdropout (0.5 : ℚ)] [1] ≠
      runVNet true [fun _ => false] [VLayer.vdropout (0.5 : ℚ)] [1] := by
  refine ⟨fun mask p x => rfl, runVNet_eval_deterministic, ?_⟩
  have h1 : runVNet true [fun _ => true] [VLayer.vdropout (0.5 : ℚ)] [1] =
      [2] := by
    show runVLayer true (fun _ => true) (VLayer.vdropout (0.5 : ℚ)) [1] = [2]
    have hr : List.range 1 = [0] := rfl
    simp [runVLayer, hr]
    norm_num
  have h2 : runVNet true [fun _ => false] [VLayer.vdropout (0.5 : ℚ)] [1] =
      [0] := by
    show runVLayer true (fun _ => false) (VLayer.vdropout (0.5 : ℚ)) [1] = [0]
    have hr : List.range 1 = [0] := rfl
    simp [runVLayer, hr]
  rw [h1, h2]
  simp only [ne_eq, List.cons.injEq, and_true]
  norm_num

/-- C10: per the notebook's cell order, the generator is seeded once
before the shallow model's initialization and training, and re-seeded
only immediately before the deep model's `fit`: the state at the deep
`fit` is a function of the seed alone, while the state at the deep
model's weight initialization carries whatever draws the shallow
model's initialization and training consumed — so it is not a function
of the seed alone. -/
theorem deep_model_seeding_dependence :
    stateBeforeShallowInit = ⟨7, 0⟩ ∧
    (∀ iInit fTrain iDeep : Nat,
        stateBeforeDeepFit iInit fTrain iDeep = npSeed 7 ⟨0, 0⟩) ∧
    (∀ iInit fTrain : Nat,
        stateBeforeDeepInit iInit fTrain = ⟨7, iInit + fTrain⟩) ∧
    stateBeforeDeepInit 5 0 ≠ stateBeforeDeepInit 5 1 := by
  refine ⟨rfl, fun _ _ _ => rfl, ?_, by decide⟩
  intro iInit fTrain
  simp [stateBeforeDeepInit, stateBeforeShallowInit, consume, npSeed]

end Cifar
